import Mathlib

/-!
Verification of the RFC 9457 problem-details library (package `rfc9457`).

Shallow embedding of the decode/encode core:
  - `Response.UnmarshalJSON` and `unmarshalExtension` (polymorphic extension
    decode driven by the process-wide registry `registeredExtensions`),
  - the default v1 `encoding/json` marshaling of `Response` implied by its
    struct tags,
  - the logger discipline of `Logger`/`EnsureLogger` (panic when unset).

JSON values are modelled by the inductive `Json`.  Terms of `Json` stand for
syntactically valid JSON documents as accepted by the `jsontext` layer, whose
default configuration rejects duplicate object member names before any of the
code modelled here runs; object member lists are therefore taken as parsed.
Go `int` is modelled by `Int`, strings by `String`.

A registered prototype (an element of `registeredExtensions`) is abstracted as
a `RegisteredExt`: the identity of its Go type (`id`) together with the
predicate `accepts` stating on which raw values `jsonv2.Unmarshal` into a
fresh instance of that type succeeds.  A resolved extension value is either a
typed instance (`ExtVal.typed`, remembering which registered type parsed which
raw value) or the `map[string]any` fallback (`ExtVal.mapAny`).

Calls to `Logger()` panic when no logger was configured (`EnsureLogger`).
Functions that may reach such a call return `Option _`, with `none` modelling
the panic; the emitted diagnostic records are collected as `LogEvent` lists.
-/

namespace RFC9457

/-- JSON values (numbers restricted to integers, which covers every field the
library types as a number: `status` is a Go `int`). -/
inductive Json where
  | null
  | bool (b : Bool)
  | num (n : Int)
  | str (s : String)
  | arr (elems : List Json)
  | obj (members : List (String × Json))

/-- One entry of the process-wide `registeredExtensions` catalog: `id` is the
identity of the registered Go type, `accepts raw` says whether
`jsonv2.Unmarshal(raw, newExt.Interface())` succeeds for a fresh instance of
that type. -/
structure RegisteredExt where
  id : Nat
  accepts : Json → Bool

/-- `RegisterExtension` appends the prototype to the catalog. -/
def registerExtension (regs : List RegisteredExt) (ext : RegisteredExt) :
    List RegisteredExt :=
  regs ++ [ext]

/-- A resolved extension value, i.e. what `unmarshalExtension` can return as
its first component: an instance of a registered type (`typed`, remembering
the type identity and the raw value it was parsed from), or the generic
`map[string]any` fallback (`mapAny`). -/
inductive ExtVal where
  | typed (tyId : Nat) (raw : Json)
  | mapAny (kvs : List (String × Json))

/-- The only error `unmarshalExtension` can return: the generic fallback parse
failed; the Go error is `fmt.Errorf("failed to unmarshal extension at index
%d: %w", index, err)`, so it carries the element's index. -/
inductive ExtErr where
  | fallbackFailed (index : Nat)

/-- Diagnostics emitted through `Logger().Error`:
`extUnmarshalError` is the "Failed to unmarshal extension" record logged by
`UnmarshalJSON` when `unmarshalExtension` returned an error;
`fallbackNotice` is the "Extension did not match any registered type, using
map[string]any" record logged on the fallback path. -/
inductive LogEvent where
  | extUnmarshalError (index : Nat) (err : ExtErr)
  | fallbackNotice (index : Nat) (data : List (String × Json))

/-- The Go `for _, registeredExt := range registeredExtensions` trial loop:
first prototype whose trial parse succeeds yields the typed value. -/
def tryRegistered : List RegisteredExt → Json → Option ExtVal
  | [], _ => none
  | reg :: rest, raw =>
    if reg.accepts raw then some (.typed reg.id raw) else tryRegistered rest raw

/-- `jsonv2.Unmarshal(raw, &fallback)` for `fallback map[string]any`: succeeds
exactly on JSON objects (returning their members) and on `null` (leaving the
map nil, modelled as `[]`); every other value is an error. -/
def mapFromJson : Json → Option (List (String × Json))
  | .obj kvs => some kvs
  | .null => some []
  | _ => none

/-- `unmarshalExtension(raw, index)` under registry `regs` and logger
configuration `loggerSet`.  Result `none` models the `EnsureLogger` panic
(the fallback path calls `Logger().Error` unconditionally); otherwise the
triple is (returned `Extension` — `none` for Go `nil` —, returned error,
log records emitted inside this call). -/
def unmarshalExtension (regs : List RegisteredExt) (loggerSet : Bool)
    (raw : Json) (index : Nat) :
    Option (Option ExtVal × Option ExtErr × List LogEvent) :=
  match tryRegistered regs raw with
  | some v => some (some v, none, [])
  | none =>
    match mapFromJson raw with
    | some kvs =>
      if loggerSet then
        some (some (.mapAny kvs), none, [.fallbackNotice index kvs])
      else
        none
    | none => some (none, some (.fallbackFailed index), [])

/-- The struct the decode first unmarshals into (`responseAlias` inside
`UnmarshalJSON`); `extensions` holds the raw `jsontext.Value` elements.
The Go field `Instance` is called `inst` here (`instance` is reserved in
Lean). -/
structure ResponseAlias where
  type : String
  title : String
  status : Int
  detail : String
  inst : String
  extensions : List Json

/-- Zero value of `responseAlias`. -/
def aliasDefault : ResponseAlias :=
  { type := "", title := "", status := 0, detail := "", inst := "", extensions := [] }

/-- Assign one object member to the matching `responseAlias` field, following
`jsonv2` semantics: exact (case-sensitive) name match, wrong JSON kind is an
error, `null` sets the zero value, unknown members are ignored. -/
def setAliasField (a : ResponseAlias) (k : String) (v : Json) :
    Except String ResponseAlias :=
  if k = "type" then
    match v with
    | .str s => .ok { a with type := s }
    | .null => .ok { a with type := "" }
    | _ => .error "cannot unmarshal into Go string field type"
  else if k = "title" then
    match v with
    | .str s => .ok { a with title := s }
    | .null => .ok { a with title := "" }
    | _ => .error "cannot unmarshal into Go string field title"
  else if k = "status" then
    match v with
    | .num n => .ok { a with status := n }
    | .null => .ok { a with status := 0 }
    | _ => .error "cannot unmarshal into Go int field status"
  else if k = "detail" then
    match v with
    | .str s => .ok { a with detail := s }
    | .null => .ok { a with detail := "" }
    | _ => .error "cannot unmarshal into Go string field detail"
  else if k = "instance" then
    match v with
    | .str s => .ok { a with inst := s }
    | .null => .ok { a with inst := "" }
    | _ => .error "cannot unmarshal into Go string field instance"
  else if k = "extensions" then
    match v with
    | .arr es => .ok { a with extensions := es }
    | .null => .ok { a with extensions := [] }
    | _ => .error "cannot unmarshal into Go slice field extensions"
  else
    .ok a

/-- Process the members of the top-level object in order. -/
def foldMembers : ResponseAlias → List (String × Json) → Except String ResponseAlias
  | a, [] => .ok a
  | a, (k, v) :: rest =>
    match setAliasField a k v with
    | .ok a2 => foldMembers a2 rest
    | .error e => .error e

/-- `jsonv2.Unmarshal(data, &temp)` for `temp responseAlias`: the document
must be a JSON object (or `null`, which leaves the zero value); anything else
is a structural error. -/
def decodeAlias : Json → Except String ResponseAlias
  | .obj kvs => foldMembers aliasDefault kvs
  | .null => .ok aliasDefault
  | _ => .error "cannot unmarshal into Go struct responseAlias"

/-- The `Response` struct.  `extensions` is Go's `[]Extension` whose elements
are interface values and may be nil (`Option`).  The Go field `Instance` is
called `inst` here. -/
structure Response where
  type : String
  title : String
  status : Int
  detail : String
  inst : String
  extensions : List (Option ExtVal)

/-- Zero value of `Response`. -/
def responseDefault : Response :=
  { type := "", title := "", status := 0, detail := "", inst := "", extensions := [] }

/-- The `for i, raw := range temp.Extensions` loop of `UnmarshalJSON`,
starting at element index `i`: each element goes through
`unmarshalExtension`; a non-nil error is logged via `Logger().Error` (which
panics — `none` — when no logger is configured); the returned extension value
is appended unconditionally. -/
def goExts (regs : List RegisteredExt) (loggerSet : Bool) :
    Nat → List Json → Option (List (Option ExtVal) × List LogEvent)
  | _, [] => some ([], [])
  | i, raw :: rest =>
    match unmarshalExtension regs loggerSet raw i with
    | none => none
    | some (ext, errOpt, evs) =>
      match
        (match errOpt with
         | some e => if loggerSet then some (evs ++ [.extUnmarshalError i e]) else none
         | none => some evs) with
      | none => none
      | some evs2 =>
        match goExts regs loggerSet (i + 1) rest with
        | none => none
        | some (tail, tevs) => some (ext :: tail, evs2 ++ tevs)

/-- Copy the fixed fields from the alias and install the resolved extension
list (the tail of `UnmarshalJSON` after a successful alias decode). -/
def copyFixed (temp : ResponseAlias) (exts : List (Option ExtVal)) : Response :=
  { type := temp.type, title := temp.title, status := temp.status,
    detail := temp.detail, inst := temp.inst, extensions := exts }

/-- `(*Response).UnmarshalJSON` under registry `regs` and logger
configuration `loggerSet`, applied to receiver `r` and document `data`.
`none` models a panic from an unconfigured logger; otherwise the triple is
(returned error, receiver after the call, log records emitted). -/
def unmarshalJSON (regs : List RegisteredExt) (loggerSet : Bool)
    (r : Response) (data : Json) :
    Option (Except String Unit × Response × List LogEvent) :=
  match decodeAlias data with
  | .error e => some (.error e, r, [])
  | .ok temp =>
    match goExts regs loggerSet 0 temp.extensions with
    | none => none
    | some (exts, evs) => some (.ok (), copyFixed temp exts, evs)

/-- Serialization of one `[]Extension` element: a nil interface marshals as
JSON `null`; a concrete value marshals through its dynamic type's marshaler,
abstracted as the parameter `extM`. -/
def marshalOptExt (extM : ExtVal → Json) : Option ExtVal → Json
  | some v => extM v
  | none => .null

/-- Default v1 `encoding/json` marshaling of `Response` as dictated by its
struct tags: fields in declaration order, `detail`, `instance` and
`extensions` carrying `omitempty` (omitted when the string is empty / the
slice has no elements).  `extM` abstracts the dynamic-type marshalers of the
extension values. -/
def marshalResponse (extM : ExtVal → Json) (r : Response) : Json :=
  .obj ([("type", .str r.type), ("title", .str r.title), ("status", .num r.status)]
    ++ (if r.detail = "" then [] else [("detail", .str r.detail)])
    ++ (if r.inst = "" then [] else [("instance", .str r.inst)])
    ++ (if r.extensions.isEmpty then []
        else [("extensions", .arr (r.extensions.map (marshalOptExt extM)))]))

/-- Top-level member names of a serialized document, in serialization order. -/
def jsonKeys : Json → List String
  | .obj kvs => kvs.map Prod.fst
  | _ => []

/-- First component (the returned `Extension` value) of an
`unmarshalExtension` outcome; `none` both for a panic and for a nil return. -/
def extPart : Option (Option ExtVal × Option ExtErr × List LogEvent) → Option ExtVal
  | some (e, _, _) => e
  | none => none

/-- The trial loop is exactly "first prototype whose `accepts` holds wins". -/
theorem tryRegistered_eq_find (regs : List RegisteredExt) (raw : Json) :
    tryRegistered regs raw =
      (regs.find? (fun p => p.accepts raw)).map (fun r => ExtVal.typed r.id raw) := by
  induction regs with
  | nil => rfl
  | cons reg rest ih =>
    by_cases h : reg.accepts raw
    · simp [tryRegistered, List.find?_cons, h]
    · simp only [tryRegistered, if_neg h, ih]
      simp [List.find?_cons, h]

/-- If no registered prototype accepts the value, the trial loop fails. -/
theorem tryRegistered_eq_none (regs : List RegisteredExt) (raw : Json)
    (h : ∀ p ∈ regs, p.accepts raw = false) : tryRegistered regs raw = none := by
  induction regs with
  | nil => rfl
  | cons reg rest ih =>
    have hr := h reg (by simp)
    simp only [tryRegistered, hr, if_neg (by simp [hr] : ¬ reg.accepts raw = true)]
    exact ih fun p hp => h p (by simp [hp])

/-- With a configured logger, one extension element never panics. -/
theorem unmarshalExtension_isSome (regs : List RegisteredExt) (raw : Json) (i : Nat) :
    (unmarshalExtension regs true raw i).isSome := by
  unfold unmarshalExtension
  cases htr : tryRegistered regs raw with
  | some v => simp
  | none =>
    cases hm : mapFromJson raw with
    | some kvs => simp
    | none => simp

/-- With a configured logger, the extension loop never panics. -/
theorem goExts_isSome (regs : List RegisteredExt) :
    ∀ (exts : List Json) (i : Nat), (goExts regs true i exts).isSome := by
  intro exts
  induction exts with
  | nil => intro i; simp [goExts]
  | cons raw rest ih =>
    intro i
    have h := unmarshalExtension_isSome regs raw i
    simp only [goExts]
    cases hu : unmarshalExtension regs true raw i with
    | none => rw [hu] at h; simp at h
    | some trip =>
      obtain ⟨ext, errOpt, evs0⟩ := trip
      have ht := ih (i + 1)
      cases hg : goExts regs true (i + 1) rest with
      | none => rw [hg] at ht; simp at ht
      | some pr =>
        obtain ⟨tail, tevs⟩ := pr
        cases errOpt <;> simp [hg]

/-- The resolved list is exactly as long as the input array, and each entry is
the independent resolution of the element at the same position. -/
theorem goExts_spec (regs : List RegisteredExt) (ls : Bool) :
    ∀ (exts : List Json) (i : Nat) (res : List (Option ExtVal)) (evs : List LogEvent),
      goExts regs ls i exts = some (res, evs) →
      res.length = exts.length ∧
      ∀ (j : Nat) (h : j < exts.length) (h2 : j < res.length),
        res.get ⟨j, h2⟩ = extPart (unmarshalExtension regs ls (exts.get ⟨j, h⟩) (i + j)) := by
  intro exts
  induction exts with
  | nil =>
    intro i res evs h
    simp only [goExts, Option.some.injEq, Prod.mk.injEq] at h
    obtain ⟨h1, _⟩ := h
    subst h1
    exact ⟨rfl, fun j h h2 => absurd h (Nat.not_lt_zero j)⟩
  | cons raw rest ih =>
    intro i res evs h
    simp only [goExts] at h
    cases hu : unmarshalExtension regs ls raw i with
    | none => rw [hu] at h; simp at h
    | some trip =>
      obtain ⟨ext, errOpt, evs0⟩ := trip
      rw [hu] at h
      cases hg : goExts regs ls (i + 1) rest with
      | none =>
        rw [hg] at h
        cases errOpt with
        | none => simp at h
        | some e => cases ls <;> simp at h
      | some pr =>
        obtain ⟨tail, tevs⟩ := pr
        rw [hg] at h
        obtain ⟨hlen, hget⟩ := ih (i + 1) tail tevs hg
        have hres : res = ext :: tail := by
          cases errOpt with
          | none => simp at h; exact h.1.symm
          | some e => cases ls <;> simp at h; exact h.1.symm
        subst hres
        refine ⟨by simp [hlen], ?_⟩
        intro j hj hj2
        cases j with
        | zero => simp [List.get, extPart, hu]
        | succ j =>
          have hj' : j < rest.length := by simpa using hj
          have hj2' : j < tail.length := by simpa using hj2
          have := hget j hj' hj2'
          simpa [List.get, Nat.add_assoc, Nat.add_comm 1 j] using this

/-- Every element whose trial parses and fallback parse both fail contributes
one "Failed to unmarshal extension" log record, carrying its index. -/
theorem goExts_err_mem (regs : List RegisteredExt) :
    ∀ (exts : List Json) (i : Nat) (res : List (Option ExtVal)) (evs : List LogEvent),
      goExts regs true i exts = some (res, evs) →
      ∀ (j : Nat) (h : j < exts.length),
        tryRegistered regs (exts.get ⟨j, h⟩) = none →
        mapFromJson (exts.get ⟨j, h⟩) = none →
        LogEvent.extUnmarshalError (i + j) (.fallbackFailed (i + j)) ∈ evs := by
  intro exts
  induction exts with
  | nil => intro i res evs h j hj; exact absurd hj (Nat.not_lt_zero j)
  | cons raw rest ih =>
    intro i res evs h j hj htr hm
    simp only [goExts] at h
    cases j with
    | zero =>
      simp only [List.get] at htr hm
      have hu : unmarshalExtension regs true raw i
          = some (none, some (.fallbackFailed i), []) := by
        simp only [unmarshalExtension, htr, hm]
      rw [hu] at h
      cases hg : goExts regs true (i + 1) rest with
      | none => rw [hg] at h; simp at h
      | some pr =>
        obtain ⟨tail, tevs⟩ := pr
        rw [hg] at h
        simp at h
        rw [← h.2]
        simp
    | succ j =>
      simp only [List.get] at htr hm
      cases hu : unmarshalExtension regs true raw i with
      | none => rw [hu] at h; simp at h
      | some trip =>
        obtain ⟨ext, errOpt, evs0⟩ := trip
        rw [hu] at h
        cases hg : goExts regs true (i + 1) rest with
        | none =>
          rw [hg] at h
          cases errOpt <;> simp at h
        | some pr =>
          obtain ⟨tail, tevs⟩ := pr
          rw [hg] at h
          have hj' : j < rest.length := by simpa using hj
          have hmem := ih (i + 1) tail tevs hg j hj' htr hm
          have harith : i + 1 + j = i + (j + 1) := by omega
          rw [harith] at hmem
          cases errOpt with
          | none =>
            simp at h
            rw [← h.2]
            simp [hmem]
          | some e =>
            simp at h
            rw [← h.2]
            simp [hmem]

/-- With no logger configured, the loop panics as soon as some element of the
array takes the fallback-notice path (no prototype matches but the generic
map parse would succeed). -/
theorem goExts_none_unlogged (regs : List RegisteredExt) :
    ∀ (exts : List Json) (i : Nat),
      (∃ raw ∈ exts, tryRegistered regs raw = none ∧ (mapFromJson raw).isSome) →
      goExts regs false i exts = none := by
  intro exts
  induction exts with
  | nil =>
    intro i h
    obtain ⟨raw, hmem, _⟩ := h
    simp at hmem
  | cons raw0 rest ih =>
    intro i h
    obtain ⟨raw, hmem, htr, hm⟩ := h
    rcases List.mem_cons.mp hmem with heq | hmem'
    · subst heq
      have hu : unmarshalExtension regs false raw i = none := by
        simp only [unmarshalExtension, htr]
        cases hmm : mapFromJson raw with
        | none => rw [hmm] at hm; simp at hm
        | some kvs => simp
      simp only [goExts, hu]
    · cases hu : unmarshalExtension regs false raw0 i with
      | none => simp only [goExts, hu]
      | some trip =>
        obtain ⟨ext, errOpt, evs0⟩ := trip
        cases errOpt with
        | some e => simp only [goExts, hu]; simp
        | none =>
          have htail := ih (i + 1) ⟨raw, hmem', htr, hm⟩
          simp only [goExts, hu, htail]

/-- If every element of the array is accepted by some registered prototype,
the loop succeeds with no log records, whatever the logger configuration. -/
theorem goExts_all_match (regs : List RegisteredExt) (ls : Bool) :
    ∀ (exts : List Json) (i : Nat),
      (∀ raw ∈ exts, (tryRegistered regs raw).isSome) →
      ∃ res, goExts regs ls i exts = some (res, []) := by
  intro exts
  induction exts with
  | nil => intro i h; exact ⟨[], rfl⟩
  | cons raw rest ih =>
    intro i h
    have hh := h raw (by simp)
    cases htr : tryRegistered regs raw with
    | none => rw [htr] at hh; simp at hh
    | some v =>
      obtain ⟨tail, htail⟩ := ih (i + 1) (fun x hx => h x (by simp [hx]))
      refine ⟨some v :: tail, ?_⟩
      have hu : unmarshalExtension regs ls raw i = some (some v, none, []) := by
        simp only [unmarshalExtension, htr]
      simp only [goExts, hu, htail]
      rfl

/-- A failing alias decode makes the whole decode return that error and leaves
the receiver untouched, with nothing logged. -/
theorem unmarshalJSON_err (regs : List RegisteredExt) (ls : Bool) (r : Response)
    (data : Json) (e : String) (h : decodeAlias data = .error e) :
    unmarshalJSON regs ls r data = some (.error e, r, []) := by
  simp only [unmarshalJSON, h]

/-- Shape of a successful whole-document decode. -/
theorem unmarshalJSON_ok (regs : List RegisteredExt) (ls : Bool) (r : Response)
    (data : Json) (temp : ResponseAlias) (h : decodeAlias data = .ok temp)
    (res : List (Option ExtVal)) (evs : List LogEvent)
    (hg : goExts regs ls 0 temp.extensions = some (res, evs)) :
    unmarshalJSON regs ls r data = some (.ok (), copyFixed temp res, evs) := by
  simp only [unmarshalJSON, h, hg]

/-- C1 counterexample: decoding a three-element extensions array whose second
element is malformed (the number `7`: not an object, matched by no prototype —
the registry is empty) yields an extension sequence of length 3, not 2: the
failed element is NOT omitted but contributes a nil entry in place, so the
result does not have fewer entries than the input array had elements. -/
theorem c1_counterexample :
    (unmarshalJSON [] true responseDefault
        (Json.obj [("type", Json.str "t"), ("title", Json.str "T"),
          ("status", Json.num 400),
          ("extensions", Json.arr [Json.obj [("a", Json.num 1)], Json.num 7,
            Json.obj [("b", Json.num 2)]])])).map
        (fun out => out.2.1.extensions) =
      some [some (ExtVal.mapAny [("a", Json.num 1)]), none,
        some (ExtVal.mapAny [("b", Json.num 2)])]
    ∧ ([some (ExtVal.mapAny [("a", Json.num 1)]), none,
        some (ExtVal.mapAny [("b", Json.num 2)])] : List (Option ExtVal)).length = 3 :=
  ⟨rfl, rfl⟩

/-- C1 (amended): for every decode of an extensions array (any length, any
registry, logger configured) in which the element at position `k` is malformed
(matched by no registered prototype and not parseable as a generic map), the
failed element contributes a nil entry IN PLACE: the resulting extension
sequence has exactly as many entries as the input array had elements, the
entry at position `k` is nil, every element that resolves to a value lands at
its own original position (so the surviving elements keep their relative
order), and the failure is reported (logged) scoped to that element's
index. -/
theorem c1_amended (regs : List RegisteredExt) (exts : List Json) (i : Nat)
    (res : List (Option ExtVal)) (evs : List LogEvent)
    (hdec : goExts regs true i exts = some (res, evs))
    (k : Nat) (hk : k < exts.length)
    (htr : tryRegistered regs (exts.get ⟨k, hk⟩) = none)
    (hm : mapFromJson (exts.get ⟨k, hk⟩) = none) :
    res.length = exts.length ∧
    (∀ h2 : k < res.length, res.get ⟨k, h2⟩ = none) ∧
    (∀ (j : Nat) (h : j < exts.length) (h2 : j < res.length) (v : ExtVal)
        (err : Option ExtErr) (evsj : List LogEvent),
      unmarshalExtension regs true (exts.get ⟨j, h⟩) (i + j) =
        some (some v, err, evsj) →
      res.get ⟨j, h2⟩ = some v) ∧
    LogEvent.extUnmarshalError (i + k) (.fallbackFailed (i + k)) ∈ evs := by
  obtain ⟨hlen, hget⟩ := goExts_spec regs true exts i res evs hdec
  refine ⟨hlen, ?_, ?_, ?_⟩
  · intro h2
    have hu : unmarshalExtension regs true (exts.get ⟨k, hk⟩) (i + k)
        = some (none, some (.fallbackFailed (i + k)), []) := by
      simp only [unmarshalExtension, htr, hm]
    rw [hget k hk h2, hu]
    rfl
  · intro j h h2 v err evsj hj
    rw [hget j h h2, hj]
    rfl
  · exact goExts_err_mem regs exts i res evs hdec k hk htr hm

/-- C1 witness: concrete run on a three-element array whose second element is
the malformed number 7: the result keeps length 3, has nil at position 2, and
the failure is logged for index 1 (0-based). -/
theorem c1_witness :
    ([some (ExtVal.mapAny [("a", Json.num 1)]), none,
        some (ExtVal.mapAny [("b", Json.num 2)])] : List (Option ExtVal)).length =
      ([Json.obj [("a", Json.num 1)], Json.num 7,
        Json.obj [("b", Json.num 2)]] : List Json).length ∧
    ([some (ExtVal.mapAny [("a", Json.num 1)]), none,
        some (ExtVal.mapAny [("b", Json.num 2)])] : List (Option ExtVal)).get
        ⟨1, by decide⟩ = none ∧
    LogEvent.extUnmarshalError 1 (ExtErr.fallbackFailed 1) ∈
      [LogEvent.fallbackNotice 0 [("a", Json.num 1)],
       LogEvent.extUnmarshalError 1 (ExtErr.fallbackFailed 1),
       LogEvent.fallbackNotice 2 [("b", Json.num 2)]] := by
  have h := c1_amended []
    [Json.obj [("a", Json.num 1)], Json.num 7, Json.obj [("b", Json.num 2)]] 0
    [some (ExtVal.mapAny [("a", Json.num 1)]), none,
      some (ExtVal.mapAny [("b", Json.num 2)])]
    [LogEvent.fallbackNotice 0 [("a", Json.num 1)],
     LogEvent.extUnmarshalError 1 (ExtErr.fallbackFailed 1),
     LogEvent.fallbackNotice 2 [("b", Json.num 2)]]
    rfl 1 (by decide) rfl rfl
  refine ⟨h.1, h.2.1 (by decide), ?_⟩
  exact h.2.2.2

/-- C2: for every extension element and every registry state, decode tries
the registered prototypes in registration order and the first prototype whose
trial parse succeeds is taken as the resolved value (`List.find?` over the
catalog), with no further prototype consulted; hence with two shapes A then B
both accepting the object, decode resolves it to A and never to B. -/
theorem c2_first_registered_wins (regs : List RegisteredExt) (raw : Json)
    (i : Nat) (ls : Bool) :
    (∀ reg, regs.find? (fun p => p.accepts raw) = some reg →
      unmarshalExtension regs ls raw i = some (some (.typed reg.id raw), none, []))
    ∧ (∀ A B : RegisteredExt, A.accepts raw = true → B.accepts raw = true →
        A.id ≠ B.id →
        unmarshalExtension [A, B] ls raw i = some (some (.typed A.id raw), none, [])
        ∧ ∀ v : Json, extPart (unmarshalExtension [A, B] ls raw i) ≠
            some (.typed B.id v)) := by
  constructor
  · intro reg hfind
    have htr : tryRegistered regs raw = some (.typed reg.id raw) := by
      rw [tryRegistered_eq_find, hfind]; rfl
    simp only [unmarshalExtension, htr]
  · intro A B hA hB hne
    have htr : tryRegistered [A, B] raw = some (.typed A.id raw) := by
      simp [tryRegistered, hA]
    have heq : unmarshalExtension [A, B] ls raw i
        = some (some (.typed A.id raw), none, []) := by
      simp only [unmarshalExtension, htr]
    refine ⟨heq, ?_⟩
    intro v hcontra
    rw [heq] at hcontra
    simp [extPart] at hcontra
    exact hne hcontra.1

/-- C2 witness: two universally-accepting shapes registered in order 1, 2
resolve a value to shape 1. -/
theorem c2_witness :
    unmarshalExtension [⟨1, fun _ => true⟩, ⟨2, fun _ => true⟩] true Json.null 0 =
      some (some (ExtVal.typed 1 Json.null), none, []) :=
  ((c2_first_registered_wins [⟨1, fun _ => true⟩, ⟨2, fun _ => true⟩]
      Json.null 0 true).2 ⟨1, fun _ => true⟩ ⟨2, fun _ => true⟩ rfl rfl
      (by decide)).1

/-- C3: an extension element that is a JSON object matched by no registered
prototype resolves to the generic `map[string]any` fallback holding exactly
the parsed object's own key-value pairs, and emits exactly one diagnostic
notice for that element. -/
theorem c3_fallback_object (regs : List RegisteredExt)
    (kvs : List (String × Json)) (i : Nat)
    (h : ∀ p ∈ regs, p.accepts (Json.obj kvs) = false) :
    unmarshalExtension regs true (Json.obj kvs) i =
      some (some (.mapAny kvs), none, [.fallbackNotice i kvs]) := by
  have htr := tryRegistered_eq_none regs (Json.obj kvs) h
  simp only [unmarshalExtension, htr, mapFromJson]
  rfl

/-- C3 witness: an object falls back past a non-matching prototype with one
notice. -/
theorem c3_witness :
    unmarshalExtension [⟨1, fun _ => false⟩] true
        (Json.obj [("foo", Json.str "bar")]) 0 =
      some (some (ExtVal.mapAny [("foo", Json.str "bar")]), none,
        [LogEvent.fallbackNotice 0 [("foo", Json.str "bar")]]) :=
  c3_fallback_object [⟨1, fun _ => false⟩] [("foo", Json.str "bar")] 0
    (by intro p hp; rw [List.mem_singleton] at hp; subst hp; rfl)

/-- C4: an input whose fixed fields violate the expected JSON shape fails the
whole document decode with the structural error, for every registry state,
logger configuration and receiver — regardless of the extensions contents. -/
theorem c4_structural_error (regs : List RegisteredExt) (ls : Bool)
    (r : Response) (data : Json) (e : String)
    (h : decodeAlias data = .error e) :
    unmarshalJSON regs ls r data = some (.error e, r, []) :=
  unmarshalJSON_err regs ls r data e h

/-- C4 witness: a document with a non-numeric `status` and a well-formed
extensions array still fails as a whole. -/
theorem c4_witness :
    unmarshalJSON [⟨1, fun _ => true⟩] true responseDefault
        (Json.obj [("type", Json.str "t"), ("title", Json.str "T"),
          ("status", Json.str "400"),
          ("extensions", Json.arr [Json.obj [("a", Json.num 1)]])]) =
      some (.error "cannot unmarshal into Go int field status",
        responseDefault, []) :=
  c4_structural_error _ _ _ _ _ rfl

/-- C5: with no logger configured, any decode whose extensions array contains
an element taking the fallback-notice path (no prototype matches but the
generic map parse succeeds) halts — `none` models the `EnsureLogger` panic —
rather than returning an error; and the halt is unreachable when a logger is
configured, or when every extension element matches some registered
prototype. -/
theorem c5_logger_discipline :
    (∀ (regs : List RegisteredExt) (r : Response) (data : Json)
        (temp : ResponseAlias) (j : Nat) (h : j < temp.extensions.length),
      decodeAlias data = .ok temp →
      tryRegistered regs (temp.extensions.get ⟨j, h⟩) = none →
      (mapFromJson (temp.extensions.get ⟨j, h⟩)).isSome →
      unmarshalJSON regs false r data = none)
    ∧ (∀ (regs : List RegisteredExt) (r : Response) (data : Json),
        (unmarshalJSON regs true r data).isSome)
    ∧ (∀ (regs : List RegisteredExt) (ls : Bool) (r : Response) (data : Json)
          (temp : ResponseAlias),
        decodeAlias data = .ok temp →
        (∀ raw ∈ temp.extensions, (tryRegistered regs raw).isSome) →
        (unmarshalJSON regs ls r data).isSome) := by
  refine ⟨?_, ?_, ?_⟩
  · intro regs r data temp j h hdec htr hm
    have hg := goExts_none_unlogged regs temp.extensions 0
      ⟨temp.extensions.get ⟨j, h⟩, List.get_mem _ _ _, htr, hm⟩
    simp only [unmarshalJSON, hdec, hg]
  · intro regs r data
    cases hdec : decodeAlias data with
    | error e => simp [unmarshalJSON, hdec]
    | ok temp =>
      have hg := goExts_isSome regs temp.extensions 0
      cases hgg : goExts regs true 0 temp.extensions with
      | none => rw [hgg] at hg; simp at hg
      | some pr =>
        obtain ⟨res, evs⟩ := pr
        simp [unmarshalJSON, hdec, hgg]
  · intro regs ls r data temp hdec hall
    obtain ⟨res, hg⟩ := goExts_all_match regs ls temp.extensions 0 hall
    simp [unmarshalJSON, hdec, hg]

/-- C5 witness: an unmatched object extension with no configured logger makes
the whole decode halt. -/
theorem c5_witness :
    unmarshalJSON [] false responseDefault
        (Json.obj [("type", Json.str "t"), ("title", Json.str "T"),
          ("status", Json.num 400),
          ("extensions", Json.arr [Json.obj [("foo", Json.str "bar")]])]) =
      none :=
  c5_logger_discipline.1 [] responseDefault _
    { type := "t", title := "T", status := 400, detail := "", inst := "",
      extensions := [Json.obj [("foo", Json.str "bar")]] }
    0 (by decide) rfl rfl rfl

/-- C6: an extension element whose generic fallback parse itself fails (it is
no object, no `null`, and no prototype accepts it) is fatal to that element
only: `unmarshalExtension` returns no value together with an error carrying
the element's index, and every other entry of the decoded sequence equals the
independent resolution of the element at the same position. -/
theorem c6_fallback_failure (regs : List RegisteredExt) (ls : Bool) :
    (∀ (raw : Json) (i : Nat),
      tryRegistered regs raw = none → mapFromJson raw = none →
      unmarshalExtension regs ls raw i =
        some (none, some (.fallbackFailed i), []))
    ∧ (∀ (exts : List Json) (i : Nat) (res : List (Option ExtVal))
          (evs : List LogEvent),
        goExts regs ls i exts = some (res, evs) →
        ∀ (j : Nat) (h : j < exts.length) (h2 : j < res.length),
          res.get ⟨j, h2⟩ =
            extPart (unmarshalExtension regs ls (exts.get ⟨j, h⟩) (i + j))) := by
  constructor
  · intro raw i htr hm
    simp only [unmarshalExtension, htr, hm]
  · intro exts i res evs h
    exact (goExts_spec regs ls exts i res evs h).2

/-- C6 witness: the number `7` at index 1 fails with an error naming index 1. -/
theorem c6_witness :
    unmarshalExtension [] true (Json.num 7) 1 =
      some (none, some (ExtErr.fallbackFailed 1), []) :=
  (c6_fallback_failure [] true).1 (Json.num 7) 1 rfl rfl

/-- C7: a document with empty detail, empty instance and no extensions
marshals to an object with exactly the keys type, title, status; and in
general the serialized keys are exactly the stable order type, title, status,
detail, instance, extensions with the three optional fields omitted exactly
when at their zero value. -/
theorem c7_marshal_keys (extM : ExtVal → Json) (r : Response) :
    (r.detail = "" → r.inst = "" → r.extensions = [] →
      marshalResponse extM r =
        .obj [("type", .str r.type), ("title", .str r.title),
          ("status", .num r.status)])
    ∧ jsonKeys (marshalResponse extM r) =
        ["type", "title", "status"]
          ++ (if r.detail = "" then [] else ["detail"])
          ++ (if r.inst = "" then [] else ["instance"])
          ++ (if r.extensions.isEmpty then [] else ["extensions"]) := by
  constructor
  · intro hd hi he
    simp [marshalResponse, hd, hi, he]
  · by_cases hd : r.detail = "" <;> by_cases hi : r.inst = "" <;>
      by_cases he : r.extensions = [] <;>
      simp [marshalResponse, jsonKeys, hd, hi, he, List.isEmpty_iff]

/-- C7 witness: concrete minimal document marshals to the three fixed keys. -/
theorem c7_witness :
    marshalResponse (fun _ => Json.null)
        { type := "t", title := "T", status := 404, detail := "", inst := "",
          extensions := [] } =
      Json.obj [("type", Json.str "t"), ("title", Json.str "T"),
        ("status", Json.num 404)] :=
  (c7_marshal_keys (fun _ => Json.null)
    { type := "t", title := "T", status := 404, detail := "", inst := "",
      extensions := [] }).1 rfl rfl rfl

/-- C8: a document with no extensions, once marshaled and decoded back (for
any registry, logger configuration, extension marshalers and fresh receiver),
yields a successful decode whose fixed fields type, title, status, detail and
instance all equal those of the original document. -/
theorem c8_roundtrip_fixed (extM : ExtVal → Json) (regs : List RegisteredExt)
    (ls : Bool) (r0 r : Response) (he : r.extensions = []) :
    ∃ resp : Response,
      unmarshalJSON regs ls r0 (marshalResponse extM r) =
        some (.ok (), resp, []) ∧
      resp.type = r.type ∧ resp.title = r.title ∧ resp.status = r.status ∧
      resp.detail = r.detail ∧ resp.inst = r.inst := by
  have hdec : decodeAlias (marshalResponse extM r) =
      .ok { type := r.type, title := r.title, status := r.status,
            detail := r.detail, inst := r.inst, extensions := [] } := by
    by_cases hd : r.detail = "" <;> by_cases hi : r.inst = "" <;>
      simp only [marshalResponse, he, hd, hi, if_true, if_false,
        List.isEmpty_nil, ite_true, ite_false] <;> rfl
  exact ⟨_, unmarshalJSON_ok regs ls r0 _ _ hdec [] [] rfl, rfl, rfl, rfl,
    rfl, rfl⟩

/-- C8 witness: a concrete document with populated fixed fields round-trips. -/
theorem c8_witness :
    ∃ resp : Response,
      unmarshalJSON [] true responseDefault
          (marshalResponse (fun _ => Json.null)
            { type := "t", title := "T", status := 404, detail := "d",
              inst := "/i", extensions := [] }) =
        some (.ok (), resp, []) ∧
      resp.type = "t" ∧ resp.title = "T" ∧ resp.status = 404 ∧
      resp.detail = "d" ∧ resp.inst = "/i" :=
  c8_roundtrip_fixed (fun _ => Json.null) [] true responseDefault
    { type := "t", title := "T", status := 404, detail := "d", inst := "/i",
      extensions := [] } rfl

/-- C9: whenever the fixed fields unmarshal successfully (and a logger is
configured), the whole document decode returns success however many extension
elements fail to resolve: the result list is as long as the input array, each
failed element contributes a nil entry, and its error appears in the log
records instead of the returned outcome. -/
theorem c9_errors_only_logged (regs : List RegisteredExt) (r : Response)
    (data : Json) (temp : ResponseAlias)
    (hdec : decodeAlias data = .ok temp) :
    ∃ (resp : Response) (evs : List LogEvent),
      unmarshalJSON regs true r data = some (.ok (), resp, evs) ∧
      resp.extensions.length = temp.extensions.length ∧
      ∀ (j : Nat) (h : j < temp.extensions.length)
          (h2 : j < resp.extensions.length),
        tryRegistered regs (temp.extensions.get ⟨j, h⟩) = none →
        mapFromJson (temp.extensions.get ⟨j, h⟩) = none →
        resp.extensions.get ⟨j, h2⟩ = none ∧
        LogEvent.extUnmarshalError j (.fallbackFailed j) ∈ evs := by
  have hg := goExts_isSome regs temp.extensions 0
  cases hgg : goExts regs true 0 temp.extensions with
  | none => rw [hgg] at hg; simp at hg
  | some pr =>
    obtain ⟨res, evs⟩ := pr
    obtain ⟨hlen, hget⟩ := goExts_spec regs true temp.extensions 0 res evs hgg
    refine ⟨copyFixed temp res, evs,
      unmarshalJSON_ok regs true r data temp hdec res evs hgg, hlen, ?_⟩
    intro j h h2 htr hm
    constructor
    · have hu : unmarshalExtension regs true (temp.extensions.get ⟨j, h⟩) (0 + j)
          = some (none, some (.fallbackFailed (0 + j)), []) := by
        simp only [unmarshalExtension, htr, hm]
      change res.get ⟨j, h2⟩ = none
      rw [hget j h h2, hu]
      rfl
    · have := goExts_err_mem regs temp.extensions 0 res evs hgg j h htr hm
      simpa using this

/-- C9 witness: one unresolvable element still yields a successful decode
with a nil entry and a logged error. -/
theorem c9_witness :
    ∃ (resp : Response) (evs : List LogEvent),
      unmarshalJSON [] true responseDefault
          (Json.obj [("type", Json.str "t"), ("title", Json.str "T"),
            ("status", Json.num 1), ("extensions", Json.arr [Json.num 3])]) =
        some (.ok (), resp, evs) ∧
      resp.extensions.length = 1 ∧
      ∀ (j : Nat) (h : j < ([Json.num 3] : List Json).length)
          (h2 : j < resp.extensions.length),
        tryRegistered [] (([Json.num 3] : List Json).get ⟨j, h⟩) = none →
        mapFromJson (([Json.num 3] : List Json).get ⟨j, h⟩) = none →
        resp.extensions.get ⟨j, h2⟩ = none ∧
        LogEvent.extUnmarshalError j (.fallbackFailed j) ∈ evs :=
  c9_errors_only_logged [] responseDefault _
    { type := "t", title := "T", status := 1, detail := "", inst := "",
      extensions := [Json.num 3] } rfl

/-- C10: when the fixed-field unmarshal fails, decode returns that error and
every field of the receiver keeps its prior value. -/
theorem c10_receiver_unchanged (regs : List RegisteredExt) (ls : Bool)
    (r : Response) (data : Json) (e : String)
    (h : decodeAlias data = .error e) :
    ∃ out, unmarshalJSON regs ls r data = some out ∧
      out.1 = .error e ∧
      out.2.1.type = r.type ∧ out.2.1.title = r.title ∧
      out.2.1.status = r.status ∧ out.2.1.detail = r.detail ∧
      out.2.1.inst = r.inst ∧ out.2.1.extensions = r.extensions :=
  ⟨(.error e, r, []), unmarshalJSON_err regs ls r data e h, rfl, rfl, rfl,
    rfl, rfl, rfl, rfl⟩

/-- C10 witness: decoding a non-object document into a populated receiver
errors and leaves every field as it was. -/
theorem c10_witness :
    ∃ out, unmarshalJSON [] true
        { type := "old", title := "Old", status := 1, detail := "od",
          inst := "/o", extensions := [some (ExtVal.mapAny [])] }
        (Json.num 3) = some out ∧
      out.1 = .error "cannot unmarshal into Go struct responseAlias" ∧
      out.2.1.type = "old" ∧ out.2.1.title = "Old" ∧
      out.2.1.status = 1 ∧ out.2.1.detail = "od" ∧
      out.2.1.inst = "/o" ∧ out.2.1.extensions = [some (ExtVal.mapAny [])] :=
  c10_receiver_unchanged [] true
    { type := "old", title := "Old", status := 1, detail := "od",
      inst := "/o", extensions := [some (ExtVal.mapAny [])] }
    (Json.num 3) "cannot unmarshal into Go struct responseAlias" rfl

end RFC9457
